import Mathlib

/-!
# Verification of the ts-check configuration analysis pipeline

Shallow embedding of the configuration discovery / merge / validation
pipeline of the `ts-check` repository, together with proofs settling the
frozen claims C1..C10.

JavaScript objects (`Record<string, any>`) are modelled as association
lists `List (String × Value)` with first-match lookup; parsed JSON objects
have unique keys, which theorems assume explicitly where it matters.
-/

set_option autoImplicit false

namespace TsCheck

/-- A JSON-style value as it occurs in tsconfig-like files.  `vMap` covers
the one nested-object shape the code reads (`compilerOptions.paths`, whose
values are string arrays). -/
inductive Value where
  | vNull : Value
  | vBool : Bool → Value
  | vNum : Int → Value
  | vStr : String → Value
  | vStrList : List String → Value
  | vMap : List (String × List String) → Value
  deriving DecidableEq, Repr

/-- JavaScript truthiness of a `Value` (`[]` and `\x7b\x7d` are truthy,
`""`, `0`, `false`, `null` are falsy). -/
def Value.truthy : Value → Bool
  | .vNull => false
  | .vBool b => b
  | .vNum n => n != 0
  | .vStr s => s != ""
  | .vStrList _ => true
  | .vMap _ => true

/-- First-match lookup in an association list, the JS `obj[k]` read. -/
def getKey {α : Type} (m : List (String × α)) (k : String) : Option α :=
  (m.find? (fun p => p.1 == k)).map (fun p => p.2)

/-- JS `obj[k] = v`: replace the value at the existing key in place, else
append the new entry at the end (JS objects have unique keys and preserve
insertion order, which this recursion reproduces). -/
def setKey {α : Type} : List (String × α) → String → α → List (String × α)
  | [], k, v => [(k, v)]
  | p :: rest, k, v => if p.1 == k then (k, v) :: rest else p :: setKey rest k v

theorem getKey_nil {α : Type} (k : String) : getKey ([] : List (String × α)) k = none := rfl

theorem getKey_cons {α : Type} (p : String × α) (m : List (String × α)) (k : String) :
    getKey (p :: m) k = if p.1 = k then some p.2 else getKey m k := by
  unfold getKey
  by_cases h : p.1 = k
  · rw [List.find?_cons_of_pos _ (by simpa using h)]; simp [h]
  · rw [List.find?_cons_of_neg _ (by simpa using h)]; simp [h]

/-- Looking up the key just written yields the written value. -/
theorem getKey_setKey_self {α : Type} (m : List (String × α)) (k : String) (v : α) :
    getKey (setKey m k v) k = some v := by
  induction m with
  | nil => simp [setKey, getKey_cons]
  | cons p rest ih =>
    by_cases hp : p.1 = k
    · simp [setKey, hp, getKey_cons]
    · simp only [setKey, beq_iff_eq, hp, if_false]
      simpa [getKey_cons, hp] using ih

/-- Writing one key leaves every other key untouched. -/
theorem getKey_setKey_ne {α : Type} (m : List (String × α)) (k k' : String) (v : α)
    (hne : k' ≠ k) : getKey (setKey m k v) k' = getKey m k' := by
  induction m with
  | nil => simp [setKey, getKey_cons, getKey_nil, Ne.symm hne]
  | cons p rest ih =>
    by_cases hp : p.1 = k
    · have hk : ¬ (k = k') := fun h => hne h.symm
      simp [setKey, hp, getKey_cons, hk]
    · simp only [setKey, beq_iff_eq, hp, if_false]
      by_cases hp' : p.1 = k'
      · simp [getKey_cons, hp']
      · simpa [getKey_cons, hp'] using ih

theorem getKey_setKey {α : Type} (m : List (String × α)) (k k' : String) (v : α) :
    getKey (setKey m k v) k' = if k' = k then some v else getKey m k' := by
  by_cases h : k' = k
  · subst h; simp [getKey_setKey_self]
  · simp [h, getKey_setKey_ne m k k' v h]

/-! ## Configuration discovery and priority selection (src/unnamed/part_002, config-finder) -/

/-- The fixed ranking list of recognized configuration filenames
(`CONFIG_FILE_NAMES` in config-finder); position = priority rank,
lower = higher precedence. -/
def CONFIG_FILE_NAMES : List String :=
  ["tsconfig.json", "tsconfig.app.json", "tsconfig.node.json", "jsconfig.json"]

/-- Model of Node's `path.basename`: the characters after the last path
separator. -/
def basename (s : String) : String :=
  ⟨(s.data.reverse.takeWhile (fun c => c != '/')).reverse⟩

/-- The `configPriority` map built in `determineRelevantConfigs`:
`CONFIG_FILE_NAMES.map((name, index) => [name, index])`; `none` for a
filename outside the ranking list (the JS code then uses `Infinity`). -/
def configPriority (name : String) : Option Nat :=
  CONFIG_FILE_NAMES.indexOf? name

/-- One iteration of the loop body of `determineRelevantConfigs`
(part_002 lines 114-130): insert at the front when the new file's
priority is strictly higher (smaller rank) than the current front's,
append at the back otherwise.  `none` as the new file's priority models
`Number.POSITIVE_INFINITY`, which compares `<` as false; `none` as the
front's priority models the `configPriorityValue != null` guard failing,
which also appends. -/
def drcStep (relevantConfigs : List String) (configFile : String) : List String :=
  let priority := configPriority (basename configFile)
  match relevantConfigs with
  | [] => [configFile]
  | front :: _ =>
    match configPriority (basename front), priority with
    | some v, some p =>
      if p < v then configFile :: relevantConfigs else relevantConfigs ++ [configFile]
    | _, _ => relevantConfigs ++ [configFile]

/-- `determineRelevantConfigs` (part_002 lines 108-136): the
front-insert-or-append pass over the discovered files. -/
def determineRelevantConfigs (configFiles : List String) : List String :=
  configFiles.foldl drcStep []

/-- Priority rank of a discovered path: position of its basename in the
ranking list (only used on paths whose basenames are in the list; the
default is irrelevant under that hypothesis). -/
def rankOf (f : String) : Nat :=
  (configPriority (basename f)).getD CONFIG_FILE_NAMES.length

/-- Spec-side minimum selection: keep the earlier element unless the new
one has a strictly smaller rank.  Folding this over the discovery list
picks the earliest highest-priority file. -/
def minStep (g e : String) : String :=
  if rankOf e < rankOf g then e else g

theorem rankOf_minStep_le_left (g e : String) : rankOf (minStep g e) ≤ rankOf g := by
  unfold minStep
  by_cases h : rankOf e < rankOf g
  · simp [h]; omega
  · simp [h]

theorem rankOf_minStep_le_right (g e : String) : rankOf (minStep g e) ≤ rankOf e := by
  unfold minStep
  by_cases h : rankOf e < rankOf g
  · simp [h]
  · simp [h]; omega

/-- The head of the result list evolves under `drcStep` exactly like the
running minimum under `minStep`, as long as every basename involved is in
the ranking list. -/
theorem foldl_drcStep_head (files : List String) :
    ∀ (L : List String) (h : String), L.head? = some h →
      (∀ f ∈ files, (configPriority (basename f)).isSome) →
      (configPriority (basename h)).isSome →
      (files.foldl drcStep L).head? = some (files.foldl minStep h) := by
  induction files with
  | nil => intro L h hHead _ _; simpa using hHead
  | cons e fs ih =>
    intro L h hHead hall hh
    obtain ⟨t, rfl⟩ : ∃ t, L = h :: t := by
      cases L with
      | nil => simp at hHead
      | cons a t => exact ⟨t, by simpa using congrArg (fun o => (o.getD h) :: t) hHead⟩
    obtain ⟨vh, hvh⟩ := Option.isSome_iff_exists.mp hh
    have he : (configPriority (basename e)).isSome := hall e (by simp)
    obtain ⟨pe, hpe⟩ := Option.isSome_iff_exists.mp he
    have hrh : rankOf h = vh := by simp [rankOf, hvh]
    have hre : rankOf e = pe := by simp [rankOf, hpe]
    have hall' : ∀ f ∈ fs, (configPriority (basename f)).isSome :=
      fun f hf => hall f (by simp [hf])
    simp only [List.foldl_cons]
    by_cases hlt : pe < vh
    · have hstep : drcStep (h :: t) e = e :: h :: t := by
        simp [drcStep, hvh, hpe, hlt]
      have hmin : minStep h e = e := by simp [minStep, hre, hrh, hlt]
      rw [hstep, hmin]
      exact ih (e :: h :: t) e rfl hall' he
    · have hstep : drcStep (h :: t) e = (h :: t) ++ [e] := by
        simp [drcStep, hvh, hpe, hlt]
      have hmin : minStep h e = h := by simp [minStep, hre, hrh, hlt]
      rw [hstep, hmin]
      exact ih ((h :: t) ++ [e]) h rfl hall' hh

/-- Folding `minStep` yields a rank lower or equal to every element's. -/
theorem foldl_minStep_min (fs : List String) :
    ∀ h : String, ∀ g ∈ h :: fs, rankOf (fs.foldl minStep h) ≤ rankOf g := by
  induction fs with
  | nil => intro h g hg; simp at hg; simp [hg]
  | cons e fs ih =>
    intro h g hg
    simp only [List.foldl_cons]
    have hle : rankOf (fs.foldl minStep (minStep h e)) ≤ rankOf (minStep h e) :=
      ih (minStep h e) (minStep h e) (by simp)
    have hg' : g = h ∨ g = e ∨ g ∈ fs := by simpa using hg
    rcases hg' with h1 | h2 | hmem
    · rw [h1]; exact le_trans hle (rankOf_minStep_le_left h e)
    · rw [h2]; exact le_trans hle (rankOf_minStep_le_right h e)
    · exact ih (minStep h e) g (by simp [hmem])

/-- Folding `minStep` yields the EARLIEST minimum: the result sits at an
index whose strict prefix consists of strictly greater ranks. -/
theorem foldl_minStep_earliest (fs : List String) :
    ∀ h : String, ∃ i, ∃ hi : i < (h :: fs).length,
      fs.foldl minStep h = (h :: fs).get ⟨i, hi⟩ ∧
      ∀ g ∈ (h :: fs).take i, rankOf (fs.foldl minStep h) < rankOf g := by
  induction fs with
  | nil =>
    intro h
    exact ⟨0, by simp, by simp, by simp⟩
  | cons e fs ih =>
    intro h
    simp only [List.foldl_cons]
    obtain ⟨i, hi, hget, hpre⟩ := ih (minStep h e)
    by_cases hlt : rankOf e < rankOf h
    · have hms : minStep h e = e := by simp [minStep, hlt]
      rw [hms] at hget hpre hi ⊢
      cases i with
      | zero =>
        refine ⟨1, by simp, by simpa using hget, ?_⟩
        intro g hg
        simp only [List.take_succ_cons, List.take_zero] at hg
        simp at hg
        rw [hg, hget]
        simpa using hlt
      | succ j =>
        have hj : j < fs.length := by simpa using hi
        refine ⟨j + 2, by simpa using hj, by simpa using hget, ?_⟩
        intro g hg
        have hle : rankOf (fs.foldl minStep e) ≤ rankOf e :=
          foldl_minStep_min fs e e (by simp)
        have hg2 : g = h ∨ g = e ∨ g ∈ fs.take j := by
          simpa [List.take_succ_cons] using hg
        rcases hg2 with h1 | h2 | hg'
        · rw [h1]; exact lt_of_le_of_lt hle hlt
        · rw [h2]; exact hpre e (by simp)
        · exact hpre g (by simp [hg'])
    · have hms : minStep h e = h := by simp [minStep, hlt]
      rw [hms] at hget hpre hi ⊢
      cases i with
      | zero =>
        exact ⟨0, by simp, by simpa using hget, by simp⟩
      | succ j =>
        have hj : j < fs.length := by simpa using hi
        refine ⟨j + 2, by simpa using hj, by simpa using hget, ?_⟩
        intro g hg
        have hh : rankOf (fs.foldl minStep h) < rankOf h := hpre h (by simp)
        have hg2 : g = h ∨ g = e ∨ g ∈ fs.take j := by
          simpa [List.take_succ_cons] using hg
        rcases hg2 with h1 | h2 | hg'
        · rw [h1]; exact hh
        · rw [h2]; exact lt_of_lt_of_le hh (by omega)
        · exact hpre g (by simp [hg'])

/-! ## The TSConfig data model and mergeConfigs (src/unnamed/part_002) -/

/-- The `TSConfig` interface of config-finder.  `includeProp` and
`extendsProp` stand for the `include` and `extends` keys (both Lean
keywords); `others` models the index signature `[key: string]: any`,
holding every top-level key outside the reserved set; `none` models an
absent (or falsy) key, matching the truthiness guards the merge code
uses. -/
structure TSConfig where
  compilerOptions : Option (List (String × Value)) := none
  includeProp : Option (List String) := none
  exclude : Option (List String) := none
  files : Option (List String) := none
  extendsProp : Option String := none
  others : List (String × Value) := []
  deriving DecidableEq, Repr

/-- JS object spread `\x7b...a, ...b\x7d`: start from `a` and assign each
entry of `b` in order (later key wins). -/
def spread {α : Type} (a b : List (String × α)) : List (String × α) :=
  b.foldl (fun acc p => setKey acc p.1 p.2) a

/-- One iteration of the merge loop of `mergeConfigs` (part_002 lines
69-95): shallow-merge `compilerOptions`, concatenate the three array
keys, assign every other top-level key. -/
def mergeOne (mergedConfig config : TSConfig) : TSConfig :=
  let m1 := match config.compilerOptions with
    | some co =>
      { mergedConfig with
        compilerOptions := some (spread (mergedConfig.compilerOptions.getD []) co) }
    | none => mergedConfig
  let m2 := match config.includeProp with
    | some l => { m1 with includeProp := some (m1.includeProp.getD [] ++ l) }
    | none => m1
  let m3 := match config.exclude with
    | some l => { m2 with exclude := some (m2.exclude.getD [] ++ l) }
    | none => m2
  let m4 := match config.files with
    | some l => { m3 with files := some (m3.files.getD [] ++ l) }
    | none => m3
  { m4 with others := spread m4.others config.others }

/-- `mergeConfigs` (part_002 lines 58-98) on the already-parsed sources in
selection order: the JS reverses the list in place and folds the merge
body over it (file reading is I/O and is modelled out; the list entries
are the parsed `ConfigurationSource`s in selection order). -/
def mergeConfigs (configs : List TSConfig) : TSConfig :=
  configs.reverse.foldl mergeOne {}

/-- Lookup of one compilerOptions key through an optional sub-object. -/
def coLookup (c : TSConfig) (k : String) : Option Value :=
  c.compilerOptions.bind (fun co => getKey co k)

theorem getKey_eq_none_of_not_mem {α : Type} (m : List (String × α)) (k : String)
    (h : k ∉ m.map Prod.fst) : getKey m k = none := by
  unfold getKey
  rw [List.find?_eq_none.mpr]
  · rfl
  · intro p hp hbeq
    exact h (List.mem_map.mpr ⟨p, hp, by simpa using hbeq⟩)

/-- Spread lookup: the right (later-assigned) object wins per key, the
left survives elsewhere; stated for unique-key right objects (parsed JSON
objects have unique keys). -/
theorem getKey_spread {α : Type} (a b : List (String × α)) (k : String)
    (hb : (b.map Prod.fst).Nodup) :
    getKey (spread a b) k =
      match getKey b k with
      | some v => some v
      | none => getKey a k := by
  induction b generalizing a with
  | nil => simp [spread, getKey_nil]
  | cons p rest ih =>
    have hb' : (p.1 :: rest.map Prod.fst).Nodup := by simpa using hb
    have hnotmem : p.1 ∉ rest.map Prod.fst := (List.nodup_cons.mp hb').1
    have hrest : (rest.map Prod.fst).Nodup := (List.nodup_cons.mp hb').2
    have hspread : spread a (p :: rest) = spread (setKey a p.1 p.2) rest := rfl
    rw [hspread, ih (setKey a p.1 p.2) hrest, getKey_cons]
    by_cases hk : p.1 = k
    · have hnone : getKey rest k = none :=
        getKey_eq_none_of_not_mem rest k (by rw [← hk]; exact hnotmem)
      rw [hnone]
      simp only [hk, if_true]
      rw [← hk, getKey_setKey_self]
    · rw [if_neg hk, getKey_setKey_ne a p.1 k p.2 (fun h => hk h.symm)]

theorem coLookup_mergeOne (M c : TSConfig) (k : String)
    (hc : ((c.compilerOptions.getD []).map Prod.fst).Nodup) :
    coLookup (mergeOne M c) k =
      match coLookup c k with
      | some v => some v
      | none => coLookup M k := by
  cases hco : c.compilerOptions with
  | none =>
    have h1 : (mergeOne M c).compilerOptions = M.compilerOptions := by
      unfold mergeOne; rw [hco]
      cases c.includeProp <;> cases c.exclude <;> cases c.files <;> rfl
    simp [coLookup, h1, hco]
  | some co =>
    rw [hco] at hc
    simp only [Option.getD_some] at hc
    have h1 : (mergeOne M c).compilerOptions =
        some (spread (M.compilerOptions.getD []) co) := by
      unfold mergeOne; rw [hco]
      cases c.includeProp <;> cases c.exclude <;> cases c.files <;> rfl
    simp only [coLookup, h1, hco, Option.some_bind]
    rw [getKey_spread _ co k hc]
    cases hM : M.compilerOptions <;> cases hcok : getKey co k <;> simp [getKey_nil]

theorem others_mergeOne (M c : TSConfig) (k : String)
    (hc : (c.others.map Prod.fst).Nodup) :
    getKey (mergeOne M c).others k =
      match getKey c.others k with
      | some v => some v
      | none => getKey M.others k := by
  have h2 : (mergeOne M c).others = spread M.others c.others := by
    unfold mergeOne
    cases c.compilerOptions <;> cases c.includeProp <;> cases c.exclude <;> cases c.files <;> rfl
  rw [h2, getKey_spread _ _ k hc]
  cases getKey c.others k <;> rfl

theorem mergeConfigs_cons (c : TSConfig) (cs : List TSConfig) :
    mergeConfigs (c :: cs) = mergeOne (mergeConfigs cs) c := by
  simp [mergeConfigs, List.foldl_append]

theorem include_mergeOne (M c : TSConfig) :
    (mergeOne M c).includeProp.getD [] = M.includeProp.getD [] ++ c.includeProp.getD [] := by
  unfold mergeOne
  cases c.compilerOptions <;> cases c.includeProp <;> cases c.exclude <;> cases c.files <;> simp

theorem exclude_mergeOne (M c : TSConfig) :
    (mergeOne M c).exclude.getD [] = M.exclude.getD [] ++ c.exclude.getD [] := by
  unfold mergeOne
  cases c.compilerOptions <;> cases c.includeProp <;> cases c.exclude <;> cases c.files <;> simp

theorem files_mergeOne (M c : TSConfig) :
    (mergeOne M c).files.getD [] = M.files.getD [] ++ c.files.getD [] := by
  unfold mergeOne
  cases c.compilerOptions <;> cases c.includeProp <;> cases c.exclude <;> cases c.files <;> simp

/-- C1: over a discovery list whose basenames are all in the fixed ranking
list, the head of `determineRelevantConfigs` is the earliest file of the
single highest (lowest-numbered) priority: it sits at an index `i`,
ranks at most every input, and everything discovered strictly before it
has a strictly greater rank (so ties go to the earliest-discovered
file). -/
theorem determineRelevantConfigs_head_is_first_highest_priority
    (configFiles : List String) (hne : configFiles ≠ [])
    (hranked : ∀ f ∈ configFiles, (configPriority (basename f)).isSome) :
    ∃ i, ∃ hi : i < configFiles.length,
      (determineRelevantConfigs configFiles).head? = some (configFiles.get ⟨i, hi⟩) ∧
      (∀ g ∈ configFiles, rankOf (configFiles.get ⟨i, hi⟩) ≤ rankOf g) ∧
      (∀ g ∈ configFiles.take i, rankOf (configFiles.get ⟨i, hi⟩) < rankOf g) := by
  cases configFiles with
  | nil => exact absurd rfl hne
  | cons f fs =>
    have h0 : drcStep [] f = [f] := rfl
    have hstep : determineRelevantConfigs (f :: fs) = fs.foldl drcStep [f] := by
      simp [determineRelevantConfigs, List.foldl_cons, h0]
    have hf : (configPriority (basename f)).isSome := hranked f (by simp)
    have hall : ∀ g ∈ fs, (configPriority (basename g)).isSome :=
      fun g hg => hranked g (by simp [hg])
    have hhead := foldl_drcStep_head fs [f] f rfl hall hf
    obtain ⟨i, hi, hget, hpre⟩ := foldl_minStep_earliest fs f
    refine ⟨i, hi, ?_, ?_, ?_⟩
    · rw [hstep, hhead, hget]
    · intro g hg; rw [← hget]; exact foldl_minStep_min fs f g hg
    · intro g hg; rw [← hget]; exact hpre g hg

theorem determineRelevantConfigs_head_witness :
    ∃ i, ∃ hi : i <
        (["a/tsconfig.node.json", "b/tsconfig.json", "c/tsconfig.json"] : List String).length,
      (determineRelevantConfigs
          ["a/tsconfig.node.json", "b/tsconfig.json", "c/tsconfig.json"]).head? =
        some ((["a/tsconfig.node.json", "b/tsconfig.json", "c/tsconfig.json"] :
          List String).get ⟨i, hi⟩) ∧
      (∀ g ∈ (["a/tsconfig.node.json", "b/tsconfig.json", "c/tsconfig.json"] : List String),
        rankOf ((["a/tsconfig.node.json", "b/tsconfig.json", "c/tsconfig.json"] :
          List String).get ⟨i, hi⟩) ≤ rankOf g) ∧
      (∀ g ∈ (["a/tsconfig.node.json", "b/tsconfig.json", "c/tsconfig.json"] :
          List String).take i,
        rankOf ((["a/tsconfig.node.json", "b/tsconfig.json", "c/tsconfig.json"] :
          List String).get ⟨i, hi⟩) < rankOf g) :=
  determineRelevantConfigs_head_is_first_highest_priority
    ["a/tsconfig.node.json", "b/tsconfig.json", "c/tsconfig.json"]
    (by decide) (by decide)

/-- C2: merging processes the sources in reverse of the selection order,
so for every `compilerOptions` key the merged value is the one from the
front-most source that sets it, and the same front-most-wins rule holds
for every top-level key outside the reserved set (the `others` keys);
stated for sources with unique keys, as parsed JSON objects are. -/
theorem mergeConfigs_front_most_source_wins (configs : List TSConfig) (k : String)
    (hco : ∀ c ∈ configs, ((c.compilerOptions.getD []).map Prod.fst).Nodup)
    (hoth : ∀ c ∈ configs, (c.others.map Prod.fst).Nodup) :
    coLookup (mergeConfigs configs) k = configs.findSome? (fun c => coLookup c k) ∧
    getKey (mergeConfigs configs).others k =
      configs.findSome? (fun c => getKey c.others k) := by
  induction configs with
  | nil => constructor <;> simp [mergeConfigs, coLookup, getKey_nil]
  | cons c cs ih =>
    have hco' : ∀ d ∈ cs, ((d.compilerOptions.getD []).map Prod.fst).Nodup :=
      fun d hd => hco d (List.mem_cons_of_mem c hd)
    have hoth' : ∀ d ∈ cs, (d.others.map Prod.fst).Nodup :=
      fun d hd => hoth d (List.mem_cons_of_mem c hd)
    obtain ⟨ih1, ih2⟩ := ih hco' hoth'
    rw [mergeConfigs_cons]
    constructor
    · rw [coLookup_mergeOne _ _ _ (hco c (by simp)), List.findSome?_cons]
      cases h : coLookup c k <;> simp [h, ih1]
    · rw [others_mergeOne _ _ _ (hoth c (by simp)), List.findSome?_cons]
      cases h : getKey c.others k <;> simp [h, ih2]

theorem mergeConfigs_front_most_source_wins_witness :
    coLookup (mergeConfigs
        [{ compilerOptions := some [("target", Value.vStr "es5"), ("strict", Value.vBool true)],
           others := [("custom", Value.vNum 1)] },
         { compilerOptions := some [("target", Value.vStr "esnext")],
           others := [("custom", Value.vNum 2), ("extra", Value.vBool false)] }]) "target" =
      ([{ compilerOptions := some [("target", Value.vStr "es5"), ("strict", Value.vBool true)],
          others := [("custom", Value.vNum 1)] },
        { compilerOptions := some [("target", Value.vStr "esnext")],
          others := [("custom", Value.vNum 2), ("extra", Value.vBool false)] }] :
        List TSConfig).findSome? (fun c => coLookup c "target") ∧
    getKey (mergeConfigs
        [{ compilerOptions := some [("target", Value.vStr "es5"), ("strict", Value.vBool true)],
           others := [("custom", Value.vNum 1)] },
         { compilerOptions := some [("target", Value.vStr "esnext")],
           others := [("custom", Value.vNum 2), ("extra", Value.vBool false)] }]).others "custom" =
      ([{ compilerOptions := some [("target", Value.vStr "es5"), ("strict", Value.vBool true)],
          others := [("custom", Value.vNum 1)] },
        { compilerOptions := some [("target", Value.vStr "esnext")],
          others := [("custom", Value.vNum 2), ("extra", Value.vBool false)] }] :
        List TSConfig).findSome? (fun c => getKey c.others "custom") :=
  ⟨(mergeConfigs_front_most_source_wins _ "target" (by decide) (by decide)).1,
   (mergeConfigs_front_most_source_wins _ "custom" (by decide) (by decide)).2⟩

/-- C3: the merged `include`, `exclude` and `files` arrays hold exactly
the elements of the corresponding arrays of all sources, multiplicity
preserved and nothing else: every string occurs in the merged array
exactly the summed number of times it occurs across the sources. -/
theorem mergeConfigs_array_fields_are_concatenations
    (configs : List TSConfig) (x : String) :
    ((mergeConfigs configs).includeProp.getD []).count x
        = (configs.map (fun c => (c.includeProp.getD []).count x)).sum ∧
    ((mergeConfigs configs).exclude.getD []).count x
        = (configs.map (fun c => (c.exclude.getD []).count x)).sum ∧
    ((mergeConfigs configs).files.getD []).count x
        = (configs.map (fun c => (c.files.getD []).count x)).sum := by
  induction configs with
  | nil => refine ⟨?_, ?_, ?_⟩ <;> simp [mergeConfigs]
  | cons c cs ih =>
    obtain ⟨ih1, ih2, ih3⟩ := ih
    rw [mergeConfigs_cons]
    refine ⟨?_, ?_, ?_⟩
    · rw [include_mergeOne, List.count_append, ih1]; simp [Nat.add_comm]
    · rw [exclude_mergeOne, List.count_append, ih2]; simp [Nat.add_comm]
    · rw [files_mergeOne, List.count_append, ih3]; simp [Nat.add_comm]

/-! ## Schema validation (src/unnamed/part_002, compiler-options) -/

/-- Value shapes the zod schema uses: an enumerated string choice, a
boolean, a string, or an array of strings. -/
inductive Shape where
  | enumOf : List String → Shape
  | boolS : Shape
  | strS : Shape
  | strListS : Shape
  deriving DecidableEq, Repr

/-- Whether a value satisfies a shape (`z.enum` / `z.boolean` /
`z.string` / `z.array(z.string())`). -/
def checkValue : Shape → Value → Bool
  | .enumOf cs, .vStr s => cs.contains s
  | .enumOf _, _ => false
  | .boolS, .vBool _ => true
  | .boolS, _ => false
  | .strS, .vStr _ => true
  | .strS, _ => false
  | .strListS, .vStrList _ => true
  | .strListS, _ => false

/-- The `compilerOptionsSchema` table (part_002 lines 155-195): every
recognized option with its shape; every option is `.optional()`, which the
validator realizes by skipping absent keys. -/
def compilerOptionsSchema : List (String × Shape) :=
  [("target", .enumOf ["es3", "es5", "es6", "es2015", "es2016", "es2017", "es2018",
      "es2019", "es2020", "es2021", "es2022", "esnext"]),
   ("module", .enumOf ["none", "commonjs", "amd", "system", "umd", "es6", "es2015",
      "es2020", "es2022", "esnext", "node16", "nodenext"]),
   ("lib", .strListS),
   ("allowJs", .boolS),
   ("checkJs", .boolS),
   ("jsx", .enumOf ["preserve", "react", "react-native", "react-jsx", "react-jsxdev"]),
   ("declaration", .boolS),
   ("declarationMap", .boolS),
   ("sourceMap", .boolS),
   ("outFile", .strS),
   ("outDir", .strS),
   ("rootDir", .strS),
   ("composite", .boolS),
   ("removeComments", .boolS),
   ("noEmit", .boolS),
   ("importHelpers", .boolS),
   ("downlevelIteration", .boolS),
   ("isolatedModules", .boolS),
   ("strict", .boolS),
   ("noImplicitAny", .boolS),
   ("strictNullChecks", .boolS),
   ("strictFunctionTypes", .boolS),
   ("strictBindCallApply", .boolS),
   ("strictPropertyInitialization", .boolS),
   ("noImplicitThis", .boolS),
   ("useUnknownInCatchVariables", .boolS),
   ("alwaysStrict", .boolS),
   ("noUnusedLocals", .boolS),
   ("noUnusedParameters", .boolS),
   ("exactOptionalPropertyTypes", .boolS),
   ("noImplicitReturns", .boolS),
   ("noFallthroughCasesInSwitch", .boolS),
   ("noUncheckedIndexedAccess", .boolS),
   ("noImplicitOverride", .boolS),
   ("noPropertyAccessFromIndexSignature", .boolS),
   ("allowUnusedLabels", .boolS),
   ("allowUnreachableCode", .boolS),
   ("skipLibCheck", .boolS),
   ("forceConsistentCasingInFileNames", .boolS)]

/-- `validateCompilerOptions` (part_002 lines 199-208): `safeParse`
against the schema.  Every option is optional (absent keys are fine),
unknown keys are stripped, never rejected (zod object default); each
offending recognized key contributes one issue whose path names exactly
that key.  Issues are modelled by their field paths. -/
def validateCompilerOptions (options : List (String × Value)) :
    Bool × List (List String) :=
  let errors := compilerOptionsSchema.filterMap (fun p =>
    match getKey options p.1 with
    | none => none
    | some v => if checkValue p.2 v then none else some [p.1])
  (errors.isEmpty, errors)

theorem getKey_isSome_of_mem {α : Type} (m : List (String × α)) (k : String) (v : α)
    (h : (k, v) ∈ m) : (getKey m k).isSome := by
  induction m with
  | nil => simp at h
  | cons p rest ih =>
    rw [getKey_cons]
    by_cases hp : p.1 = k
    · simp [hp]
    · have : (k, v) ∈ rest := by
        rcases List.mem_cons.mp h with h1 | h1
        · exact absurd (by rw [← h1]) hp
        · exact h1
      simp [hp, ih this]

/-- C4: a settings object with `target: "invalid"` is invalid with exactly
one error, whose path names `target`; the empty settings object is valid;
and an object containing only unrecognized keys is valid (unknown keys
are permitted). -/
theorem validateCompilerOptions_target_empty_unknown :
    validateCompilerOptions [("target", Value.vStr "invalid")] = (false, [["target"]]) ∧
    validateCompilerOptions [] = (true, []) ∧
    ∀ options : List (String × Value),
      (∀ p ∈ options, getKey compilerOptionsSchema p.1 = none) →
      validateCompilerOptions options = (true, []) := by
  refine ⟨by decide, by decide, ?_⟩
  intro options hopts
  have herr : compilerOptionsSchema.filterMap (fun p =>
      match getKey options p.1 with
      | none => none
      | some v => if checkValue p.2 v then none else some [p.1]) = [] := by
    rw [List.filterMap_eq_nil_iff]
    intro q hq
    have hnone : getKey options q.1 = none := by
      apply getKey_eq_none_of_not_mem
      intro hmem
      obtain ⟨p, hp, hpk⟩ := List.mem_map.mp hmem
      have hs : (getKey compilerOptionsSchema q.1).isSome :=
        getKey_isSome_of_mem compilerOptionsSchema q.1 q.2 (by simpa using hq)
      rw [← hpk, hopts p hp] at hs
      simp at hs
    simp [hnone]
  simp [validateCompilerOptions, herr]

theorem validateCompilerOptions_unknown_witness :
    validateCompilerOptions [("customFlag", Value.vBool true), ("vendor", Value.vStr "x")] =
      (true, []) :=
  validateCompilerOptions_target_empty_unknown.2.2
    [("customFlag", Value.vBool true), ("vendor", Value.vStr "x")] (by decide)

/-! ## Dependency configuration fold (src/src/utils/project-structure.ts,
node-modules-resolver, lines 187-229) -/

/-- The `paths` sub-object of a compilerOptions map, when present with the
JSON object shape the code is written for (values are string arrays;
a falsy or absent `paths` gives `none`, matching the truthiness guard). -/
def getPathsMap (co : List (String × Value)) : Option (List (String × List String)) :=
  match getKey co "paths" with
  | some (Value.vMap m) => some m
  | _ => none

/-- The `types` array of a compilerOptions map, when present with its
array shape (a falsy or absent `types` gives `none`). -/
def getTypesList (co : List (String × Value)) : Option (List String) :=
  match getKey co "types" with
  | some (Value.vStrList l) => some l
  | _ => none

/-- Rewrite of a dependency's path targets:
`value.map(p => \x60node_modules/$\x7bdependencyName\x7d/$\x7bp\x7d\x60)`. -/
def prefixPaths (dependencyName : String) (ps : List String) : List String :=
  ps.map (fun p => "node_modules/" ++ dependencyName ++ "/" ++ p)

/-- One iteration of the dependency loop of `incorporateDependencyConfigs`
acting on the (shared, mutated-in-place) compilerOptions object: namespace
and rewrite the dependency's `paths` entries, then append its `types`.
The JS `if (value)` guard is always true here because JSON path targets
are arrays, which are truthy. -/
def incorporateOne (co : List (String × Value)) (dep : String × TSConfig) :
    List (String × Value) :=
  match dep.2.compilerOptions with
  | none => co
  | some dco =>
    let co1 := match getPathsMap dco with
      | none => co
      | some pm =>
        let base := (getPathsMap co).getD []
        let merged := pm.foldl
          (fun acc q => setKey acc (dep.1 ++ "/" ++ q.1) (prefixPaths dep.1 q.2)) base
        setKey co "paths" (Value.vMap merged)
    match getTypesList dco with
    | none => co1
    | some ts =>
      let baseT := (getTypesList co1).getD []
      setKey co1 "types" (Value.vStrList (baseT ++ ts))

/-- `incorporateDependencyConfigs` (project-structure.ts lines 187-229)
with the JS heap made explicit: the first component is the returned
configuration, the second is the state of the input `projectConfig` after
the call.  The JS spread copies only the top level, so when the input has
a `compilerOptions` object the function's writes go through the shared
reference and are visible on the input afterwards; when it does not, the
function works on a fresh object and the input is untouched. -/
def incorporateDependencyConfigs (projectConfig : TSConfig)
    (dependencyConfigs : List (String × TSConfig)) : TSConfig × TSConfig :=
  let co1 := dependencyConfigs.foldl incorporateOne (projectConfig.compilerOptions.getD [])
  let updatedConfig := { projectConfig with compilerOptions := some co1 }
  let projectAfter := match projectConfig.compilerOptions with
    | some _ => { projectConfig with compilerOptions := some co1 }
    | none => projectConfig
  (updatedConfig, projectAfter)

/-- The namespaced, target-rewritten path entries one dependency
contributes. -/
def nsEntries (dep : String × TSConfig) : List (String × List String) :=
  match dep.2.compilerOptions with
  | none => []
  | some dco =>
    match getPathsMap dco with
    | none => []
    | some pm => pm.map (fun q => (dep.1 ++ "/" ++ q.1, prefixPaths dep.1 q.2))

/-- The extra type declarations one dependency contributes. -/
def depTypes (dep : String × TSConfig) : List String :=
  match dep.2.compilerOptions with
  | none => []
  | some dco => (getTypesList dco).getD []

/-- The effective `paths` mapping of a configuration. -/
def pathsOf (cfg : TSConfig) : List (String × List String) :=
  (getPathsMap (cfg.compilerOptions.getD [])).getD []

/-- The effective `types` list of a configuration. -/
def typesOf (cfg : TSConfig) : List String :=
  (getTypesList (cfg.compilerOptions.getD [])).getD []

theorem getPathsMap_setKey_types (co : List (String × Value)) (v : Value) :
    getPathsMap (setKey co "types" v) = getPathsMap co := by
  unfold getPathsMap; rw [getKey_setKey_ne _ _ _ _ (by decide)]

theorem getTypesList_setKey_paths (co : List (String × Value)) (v : Value) :
    getTypesList (setKey co "paths" v) = getTypesList co := by
  unfold getTypesList; rw [getKey_setKey_ne _ _ _ _ (by decide)]

theorem getPathsMap_setKey_paths (co : List (String × Value))
    (m : List (String × List String)) :
    getPathsMap (setKey co "paths" (Value.vMap m)) = some m := by
  unfold getPathsMap; rw [getKey_setKey_self]

theorem getTypesList_setKey_types (co : List (String × Value)) (l : List String) :
    getTypesList (setKey co "types" (Value.vStrList l)) = some l := by
  unfold getTypesList; rw [getKey_setKey_self]

theorem getPathsMap_incorporateOne (co : List (String × Value)) (dep : String × TSConfig) :
    (getPathsMap (incorporateOne co dep)).getD [] =
      (nsEntries dep).foldl (fun acc q => setKey acc q.1 q.2) ((getPathsMap co).getD []) := by
  cases hdco : dep.2.compilerOptions with
  | none => simp [incorporateOne, nsEntries, hdco]
  | some dco =>
    cases hpm : getPathsMap dco with
    | none =>
      cases hts : getTypesList dco with
      | none => simp [incorporateOne, nsEntries, hdco, hpm, hts]
      | some ts =>
        have h1 : incorporateOne co dep =
            setKey co "types" (Value.vStrList ((getTypesList co).getD [] ++ ts)) := by
          simp [incorporateOne, hdco, hpm, hts]
        rw [h1, getPathsMap_setKey_types]
        simp [nsEntries, hdco, hpm]
    | some pm =>
      cases hts : getTypesList dco with
      | none =>
        have h1 : incorporateOne co dep =
            setKey co "paths" (Value.vMap (pm.foldl
              (fun acc q => setKey acc (dep.1 ++ "/" ++ q.1) (prefixPaths dep.1 q.2))
              ((getPathsMap co).getD []))) := by
          simp [incorporateOne, hdco, hpm, hts]
        rw [h1, getPathsMap_setKey_paths]
        simp [nsEntries, hdco, hpm, List.foldl_map]
      | some ts =>
        have h1 : incorporateOne co dep =
            setKey (setKey co "paths" (Value.vMap (pm.foldl
              (fun acc q => setKey acc (dep.1 ++ "/" ++ q.1) (prefixPaths dep.1 q.2))
              ((getPathsMap co).getD [])))) "types"
              (Value.vStrList ((getTypesList (setKey co "paths" (Value.vMap (pm.foldl
                (fun acc q => setKey acc (dep.1 ++ "/" ++ q.1) (prefixPaths dep.1 q.2))
                ((getPathsMap co).getD []))))).getD [] ++ ts)) := by
          simp [incorporateOne, hdco, hpm, hts]
        rw [h1, getPathsMap_setKey_types, getPathsMap_setKey_paths]
        simp [nsEntries, hdco, hpm, List.foldl_map]

theorem getTypesList_incorporateOne (co : List (String × Value)) (dep : String × TSConfig) :
    (getTypesList (incorporateOne co dep)).getD [] =
      (getTypesList co).getD [] ++ depTypes dep := by
  cases hdco : dep.2.compilerOptions with
  | none => simp [incorporateOne, depTypes, hdco]
  | some dco =>
    cases hpm : getPathsMap dco with
    | none =>
      cases hts : getTypesList dco with
      | none => simp [incorporateOne, depTypes, hdco, hpm, hts]
      | some ts =>
        have h1 : incorporateOne co dep =
            setKey co "types" (Value.vStrList ((getTypesList co).getD [] ++ ts)) := by
          simp [incorporateOne, hdco, hpm, hts]
        rw [h1, getTypesList_setKey_types]
        simp [depTypes, hdco, hts]
    | some pm =>
      cases hts : getTypesList dco with
      | none =>
        have h1 : incorporateOne co dep =
            setKey co "paths" (Value.vMap (pm.foldl
              (fun acc q => setKey acc (dep.1 ++ "/" ++ q.1) (prefixPaths dep.1 q.2))
              ((getPathsMap co).getD []))) := by
          simp [incorporateOne, hdco, hpm, hts]
        rw [h1, getTypesList_setKey_paths]
        simp [depTypes, hdco, hts]
      | some ts =>
        have h1 : incorporateOne co dep =
            setKey (setKey co "paths" (Value.vMap (pm.foldl
              (fun acc q => setKey acc (dep.1 ++ "/" ++ q.1) (prefixPaths dep.1 q.2))
              ((getPathsMap co).getD [])))) "types"
              (Value.vStrList ((getTypesList (setKey co "paths" (Value.vMap (pm.foldl
                (fun acc q => setKey acc (dep.1 ++ "/" ++ q.1) (prefixPaths dep.1 q.2))
                ((getPathsMap co).getD []))))).getD [] ++ ts)) := by
          simp [incorporateOne, hdco, hpm, hts]
        rw [h1, getTypesList_setKey_types]
        simp [depTypes, hdco, hts, getTypesList_setKey_paths]

theorem pathsOf_fold (deps : List (String × TSConfig)) (co : List (String × Value)) :
    (getPathsMap (deps.foldl incorporateOne co)).getD [] =
      (deps.flatMap nsEntries).foldl (fun acc q => setKey acc q.1 q.2)
        ((getPathsMap co).getD []) := by
  induction deps generalizing co with
  | nil => simp
  | cons d ds ih =>
    simp only [List.foldl_cons, List.flatMap_cons, List.foldl_append]
    rw [ih (incorporateOne co d), getPathsMap_incorporateOne]

theorem typesOf_fold (deps : List (String × TSConfig)) (co : List (String × Value)) :
    (getTypesList (deps.foldl incorporateOne co)).getD [] =
      (getTypesList co).getD [] ++ deps.flatMap depTypes := by
  induction deps generalizing co with
  | nil => simp
  | cons d ds ih =>
    simp only [List.foldl_cons, List.flatMap_cons]
    rw [ih (incorporateOne co d), getTypesList_incorporateOne, List.append_assoc]

theorem getKey_foldl_setKey_not_mem {α : Type} (writes : List (String × α))
    (m : List (String × α)) (k : String) (h : k ∉ writes.map Prod.fst) :
    getKey (writes.foldl (fun acc q => setKey acc q.1 q.2) m) k = getKey m k := by
  induction writes generalizing m with
  | nil => rfl
  | cons w ws ih =>
    simp only [List.foldl_cons]
    have hk : k ≠ w.1 := fun he => h (by simp [he])
    rw [ih _ (fun hm => h (by simp [hm])), getKey_setKey_ne _ _ _ _ hk]

/-- A key written exactly once by a fold of assignments ends with its
written value. -/
theorem getKey_foldl_setKey_write_once {α : Type} (writes : List (String × α))
    (m : List (String × α)) (k : String) (v : α)
    (hmem : (k, v) ∈ writes) (hnd : (writes.map Prod.fst).Nodup) :
    getKey (writes.foldl (fun acc q => setKey acc q.1 q.2) m) k = some v := by
  induction writes generalizing m with
  | nil => simp at hmem
  | cons w ws ih =>
    simp only [List.foldl_cons]
    have hnd' : (w.1 :: ws.map Prod.fst).Nodup := by simpa using hnd
    rcases List.mem_cons.mp hmem with h1 | h1
    · have hw1 : w.1 = k := by rw [← h1]
      have hw2 : w.2 = v := by rw [← h1]
      have hnot : k ∉ ws.map Prod.fst := by
        rw [← hw1]; exact (List.nodup_cons.mp hnd').1
      rw [getKey_foldl_setKey_not_mem ws _ k hnot, ← hw1, getKey_setKey_self, hw2]
    · exact ih _ h1 (List.nodup_cons.mp hnd').2

/-- C5: every dependency's `paths` entry `k ↦ ps` appears in the folded
configuration under the namespaced key `dep/k` with each target prefixed
by `node_modules/dep/`, and the dependencies' `types` are appended, in
order and without deduplication, after the project's own `types`.  The
namespaced keys are assumed pairwise distinct (dependency map keys are
unique, and distinct dependencies produce distinct namespaced keys). -/
theorem incorporateDependencyConfigs_paths_and_types
    (projectConfig : TSConfig) (deps : List (String × TSConfig))
    (huniq : ((deps.flatMap nsEntries).map Prod.fst).Nodup) :
    (∀ depName depCfg dco pm k ps,
      (depName, depCfg) ∈ deps →
      depCfg.compilerOptions = some dco →
      getPathsMap dco = some pm →
      (k, ps) ∈ pm →
      getKey (pathsOf (incorporateDependencyConfigs projectConfig deps).1)
        (depName ++ "/" ++ k) = some (prefixPaths depName ps)) ∧
    typesOf (incorporateDependencyConfigs projectConfig deps).1 =
      typesOf projectConfig ++ deps.flatMap depTypes := by
  have hfst : (incorporateDependencyConfigs projectConfig deps).1.compilerOptions =
      some (deps.foldl incorporateOne (projectConfig.compilerOptions.getD [])) := rfl
  constructor
  · intro depName depCfg dco pm k ps hdep hdco hpm hentry
    have hw : (depName ++ "/" ++ k, prefixPaths depName ps) ∈ deps.flatMap nsEntries := by
      apply List.mem_flatMap.mpr
      refine ⟨(depName, depCfg), hdep, ?_⟩
      simp only [nsEntries, hdco, hpm]
      exact List.mem_map.mpr ⟨(k, ps), hentry, rfl⟩
    unfold pathsOf
    rw [hfst, Option.getD_some, pathsOf_fold]
    exact getKey_foldl_setKey_write_once _ _ _ _ hw huniq
  · unfold typesOf
    rw [hfst, Option.getD_some, typesOf_fold]

/-- Concrete project configuration used to exercise the dependency fold. -/
def cfgC5 : TSConfig :=
  { compilerOptions := some
      [("paths", Value.vMap [("app", ["src/app"])]),
       ("types", Value.vStrList ["node"])] }

/-- Concrete dependency configuration used to exercise the dependency
fold. -/
def depCfgC5 : TSConfig :=
  { compilerOptions := some
      [("paths", Value.vMap [("helpers", ["dist/helpers.d.ts"])]),
       ("types", Value.vStrList ["mylib-types"])] }

/-- Concrete dependency map used to exercise the dependency fold. -/
def depsC5 : List (String × TSConfig) := [("mylib", depCfgC5)]

theorem incorporateDependencyConfigs_paths_and_types_witness :
    getKey (pathsOf (incorporateDependencyConfigs cfgC5 depsC5).1) ("mylib" ++ "/" ++ "helpers")
        = some (prefixPaths "mylib" ["dist/helpers.d.ts"]) ∧
    typesOf (incorporateDependencyConfigs cfgC5 depsC5).1 =
      typesOf cfgC5 ++ depsC5.flatMap depTypes :=
  ⟨(incorporateDependencyConfigs_paths_and_types cfgC5 depsC5 (by decide)).1
      "mylib" depCfgC5
      [("paths", Value.vMap [("helpers", ["dist/helpers.d.ts"])]),
       ("types", Value.vStrList ["mylib-types"])]
      [("helpers", ["dist/helpers.d.ts"])] "helpers" ["dist/helpers.d.ts"]
      (by decide) rfl rfl (by decide),
   (incorporateDependencyConfigs_paths_and_types cfgC5 depsC5 (by decide)).2⟩

/-- C6 counterexample: `incorporateDependencyConfigs` is not
side-effect-free on its input.  With an input configuration that has a
(shared) `compilerOptions` object and one dependency contributing a
`types` entry, the input configuration after the call differs from the
input before the call: the JS writes go through the aliased nested
object. -/
theorem incorporateDependencyConfigs_mutates_input_counterexample :
    (incorporateDependencyConfigs { compilerOptions := some [] }
        [("lodash", { compilerOptions := some [("types", Value.vStrList ["lodash-types"])] })]).2 ≠
      { compilerOptions := some [] } := by
  decide

/-- C6 amended: the transform returns a fresh top-level configuration
(all non-`compilerOptions` fields are carried over unchanged), and when
the input has no `compilerOptions` object the input itself is left
unchanged; but when the input does have one, that nested object is shared
and mutated in place, so after the call the input configuration equals
the returned configuration rather than its old value. -/
theorem incorporateDependencyConfigs_top_level_fresh_nested_shared
    (cfg : TSConfig) (deps : List (String × TSConfig)) :
    ((incorporateDependencyConfigs cfg deps).1.includeProp = cfg.includeProp ∧
     (incorporateDependencyConfigs cfg deps).1.exclude = cfg.exclude ∧
     (incorporateDependencyConfigs cfg deps).1.files = cfg.files ∧
     (incorporateDependencyConfigs cfg deps).1.extendsProp = cfg.extendsProp ∧
     (incorporateDependencyConfigs cfg deps).1.others = cfg.others) ∧
    (cfg.compilerOptions = none → (incorporateDependencyConfigs cfg deps).2 = cfg) ∧
    (cfg.compilerOptions.isSome →
      (incorporateDependencyConfigs cfg deps).2 = (incorporateDependencyConfigs cfg deps).1) := by
  refine ⟨⟨rfl, rfl, rfl, rfl, rfl⟩, ?_, ?_⟩
  · intro h
    simp [incorporateDependencyConfigs, h]
  · intro h
    obtain ⟨co, hco⟩ := Option.isSome_iff_exists.mp h
    simp [incorporateDependencyConfigs, hco]

theorem incorporateDependencyConfigs_frame_witness :
    (incorporateDependencyConfigs {} [("lodash",
        { compilerOptions := some [("types", Value.vStrList ["lodash-types"])] })]).2 =
      ({} : TSConfig) ∧
    (incorporateDependencyConfigs { compilerOptions := some [] } [("lodash",
        { compilerOptions := some [("types", Value.vStrList ["lodash-types"])] })]).2 =
      (incorporateDependencyConfigs { compilerOptions := some [] } [("lodash",
        { compilerOptions := some [("types", Value.vStrList ["lodash-types"])] })]).1 :=
  ⟨(incorporateDependencyConfigs_top_level_fresh_nested_shared {} _).2.1 rfl,
   (incorporateDependencyConfigs_top_level_fresh_nested_shared
      { compilerOptions := some [] } _).2.2 (by decide)⟩

/-! ## Project structure analysis (src/src/utils/project-structure.ts,
lines 5-83) -/

/-- The `ProjectStructure` record: flat lists of project-relative file and
directory paths. -/
structure ProjectStructure where
  files : List String := []
  directories : List String := []
  deriving DecidableEq, Repr

/-- `pattern.replace(/\./g, "\\.")`. -/
def escapeDots (cs : List Char) : List Char :=
  cs.flatMap (fun c => if c = '.' then ['\\', '.'] else [c])

/-- `.replace(/\*/g, ".*")` (applied after the dots are escaped). -/
def expandStars (cs : List Char) : List Char :=
  cs.flatMap (fun c => if c = '*' then ['.', '*'] else [c])

/-- `.replace(/\?/g, ".")` (applied last). -/
def replaceQMarks (cs : List Char) : List Char :=
  cs.map (fun c => if c = '?' then '.' else c)

/-- The regex text `minimatch` builds between the `^` and `$` anchors:
the three sequential global replaces of the source. -/
def translatePattern (pattern : String) : List Char :=
  replaceQMarks (expandStars (escapeDots pattern.data))

/-- Tokens of the regex fragment reachable from the translation: a literal
character, `.` (any one character) and `.*` (any run). -/
inductive RTok where
  | lit : Char → RTok
  | anyChar : RTok
  | anyStar : RTok
  deriving DecidableEq, Repr

/-- Regex metacharacters (other than the handled `\.`, `.` and `.*`) that
put the translated text outside the modelled fragment.  `new RegExp` on
such text either fails outright (e.g. an unmatched `(` or `[`, a lone
quantifier) or introduces semantics the simplified matcher does not
claim; the model conservatively reports no parse for all of them, and the
C8 counterexample uses `(`, whose translation `^($` is genuinely invalid
in JS. -/
def regexMetaOther : List Char :=
  ['(', ')', '[', ']', Char.ofNat 123, Char.ofNat 125, '+', '|', '^', '$', '*', '?']

/-- Parser for the translated regex text, `none` modelling a `RegExp`
construction failure (a thrown `SyntaxError`). -/
def parseTranslated : List Char → Option (List RTok)
  | [] => some []
  | '\\' :: '.' :: rest => (parseTranslated rest).map (fun ts => RTok.lit '.' :: ts)
  | '\\' :: _ => none
  | '.' :: '*' :: rest => (parseTranslated rest).map (fun ts => RTok.anyStar :: ts)
  | '.' :: rest => (parseTranslated rest).map (fun ts => RTok.anyChar :: ts)
  | c :: rest =>
    if regexMetaOther.contains c then none
    else (parseTranslated rest).map (fun ts => RTok.lit c :: ts)

/-- Anchored matching of the token list against the whole character list
(the `^...$` regex test).  Fuel-indexed to stay structurally recursive;
every step strictly shrinks `tokens.length + s.length`, so the wrapper's
fuel is always sufficient. -/
def rmatchFuel : Nat → List RTok → List Char → Bool
  | 0, _, _ => false
  | _ + 1, [], [] => true
  | _ + 1, [], _ :: _ => false
  | _ + 1, RTok.lit _ :: _, [] => false
  | n + 1, RTok.lit c :: ts, d :: ds => c == d && rmatchFuel n ts ds
  | _ + 1, RTok.anyChar :: _, [] => false
  | n + 1, RTok.anyChar :: ts, _ :: ds => rmatchFuel n ts ds
  | n + 1, RTok.anyStar :: ts, [] => rmatchFuel n ts []
  | n + 1, RTok.anyStar :: ts, d :: ds =>
    rmatchFuel n ts (d :: ds) || rmatchFuel n (RTok.anyStar :: ts) ds

/-- `regex.test(filename)` for the parsed, anchored pattern. -/
def rmatch (tokens : List RTok) (s : List Char) : Bool :=
  rmatchFuel (tokens.length + s.length + 1) tokens s

/-- The simplified `minimatch` (project-structure.ts lines 76-83): build
the translated regex and test the filename against it; `none` when the
regex construction throws. -/
def minimatch (filename pattern : String) : Option Bool :=
  (parseTranslated (translatePattern pattern)).map (fun ts => rmatch ts filename.data)

/-- `minimatch` in the exception monad: a failed `RegExp` construction is
the thrown `SyntaxError`. -/
def minimatchE (filename pattern : String) : Except String Bool :=
  match minimatch filename pattern with
  | some b => .ok b
  | none => .error "Invalid regular expression"

/-- `Array.prototype.some` with a predicate that can throw: stops at the
first `true`, propagates the first exception. -/
def someExcept {ε α : Type} (p : α → Except ε Bool) : List α → Except ε Bool
  | [] => .ok false
  | x :: xs =>
    match p x with
    | .error e => .error e
    | .ok true => .ok true
    | .ok false => someExcept p xs

/-- `Array.prototype.filter` with a predicate that can throw: evaluates
left to right, propagates the first exception. -/
def filterExcept {ε α : Type} (p : α → Except ε Bool) : List α → Except ε (List α)
  | [] => .ok []
  | x :: xs =>
    match p x with
    | .error e => .error e
    | .ok b =>
      match filterExcept p xs with
      | .error e => .error e
      | .ok ys => .ok (if b then x :: ys else ys)

/-- The `files`-branch messages of `analyzeProjectStructure` (lines
48-54): a header plus one line per declared file absent from the actual
structure. -/
def missingMessages (st : ProjectStructure) (fl : List String) : List String :=
  let missingFiles := fl.filter (fun file => !(st.files.contains file))
  if missingFiles.length > 0 then
    "The following files specified in 'files' are missing from the project:" ::
      missingFiles.map (fun file => "  - " ++ file)
  else []

/-- `analyzeProjectStructure` (project-structure.ts lines 43-73) in the
exception monad: the `files` cross-check, then the `include` match count,
then the `exclude` warning; a `RegExp` SyntaxError thrown inside a filter
aborts the run. -/
def analyzeProjectStructure (st : ProjectStructure) (tsconfig : TSConfig) :
    Except String (List String) :=
  let msgs1 : List String := match tsconfig.files with
    | none => []
    | some fl => missingMessages st fl
  let step2 : Except String (List String) := match tsconfig.includeProp with
    | none => .ok msgs1
    | some incl =>
      match filterExcept
          (fun file => someExcept (fun pattern => minimatchE file pattern) incl)
          st.files with
      | .error e => .error e
      | .ok includedFiles =>
        .ok (msgs1 ++
          ["Found " ++ toString includedFiles.length ++ " files matching 'include' patterns."])
  match step2 with
  | .error e => .error e
  | .ok msgs2 =>
    match tsconfig.exclude with
    | none => .ok msgs2
    | some excl =>
      match filterExcept
          (fun file => someExcept (fun pattern => minimatchE file pattern) excl)
          st.files with
      | .error e => .error e
      | .ok excludedFiles =>
        .ok (if excludedFiles.length > 0 then
          msgs2 ++
            ["Warning: Found " ++ toString excludedFiles.length ++
              " files matching 'exclude' patterns."]
        else msgs2)

/-- C7: an explicit `files` list is only advisory: the analyzer returns
`.ok` with the missing-files messages, every declared file absent from
the structure is reported by its own "  - file" line, and on the concrete
instance `files = ["src/a.ts"]` against a structure lacking that file the
output consists of the header plus exactly one message naming the file. -/
theorem analyzeProjectStructure_missing_files (st : ProjectStructure) (fl : List String) :
    analyzeProjectStructure st { files := some fl } = .ok (missingMessages st fl) ∧
    (∀ f ∈ fl, st.files.contains f = false → ("  - " ++ f) ∈ missingMessages st fl) ∧
    (analyzeProjectStructure { files := ["src/b.ts"] } { files := some ["src/a.ts"] } =
      .ok ["The following files specified in 'files' are missing from the project:",
        "  - src/a.ts"] ∧
     (["The following files specified in 'files' are missing from the project:",
        "  - src/a.ts"].count "  - src/a.ts") = 1) := by
  refine ⟨rfl, ?_, by rfl, by decide⟩
  intro f hf hcon
  unfold missingMessages
  have hmem : f ∈ fl.filter (fun file => !(st.files.contains file)) :=
    List.mem_filter.mpr ⟨hf, by simpa using hcon⟩
  have hpos : (fl.filter (fun file => !(st.files.contains file))).length > 0 :=
    List.length_pos.mpr (List.ne_nil_of_mem hmem)
  simp only [hpos, if_pos]
  exact List.mem_cons_of_mem _ (List.mem_map.mpr ⟨f, hmem, rfl⟩)

theorem analyzeProjectStructure_missing_files_witness :
    ("  - " ++ "src/a.ts") ∈ missingMessages { files := ["src/b.ts"] } ["src/a.ts"] :=
  (analyzeProjectStructure_missing_files { files := ["src/b.ts"] } ["src/a.ts"]).2.1
    "src/a.ts" (by decide) (by decide)

/-- C8 counterexample: the analyzer CAN raise.  With one project file
present and the include pattern `(`, the translated regex `^($` is not a
valid regular expression, so the `RegExp` construction inside the filter
throws and the error propagates out of `analyzeProjectStructure` instead
of a message list being returned. -/
theorem analyzeProjectStructure_raises_on_invalid_pattern :
    analyzeProjectStructure { files := ["a"] } { includeProp := some ["("] } =
      .error "Invalid regular expression" := by
  rfl

theorem someExcept_ok {ε α : Type} (p : α → Except ε Bool) (l : List α)
    (h : ∀ x ∈ l, ∃ b, p x = .ok b) : ∃ b, someExcept p l = .ok b := by
  induction l with
  | nil => exact ⟨false, rfl⟩
  | cons x xs ih =>
    obtain ⟨b, hb⟩ := h x (by simp)
    cases b with
    | false =>
      obtain ⟨b', hb'⟩ := ih (fun y hy => h y (by simp [hy]))
      exact ⟨b', by simp [someExcept, hb, hb']⟩
    | true => exact ⟨true, by simp [someExcept, hb]⟩

theorem filterExcept_ok {ε α : Type} (p : α → Except ε Bool) (l : List α)
    (h : ∀ x ∈ l, ∃ b, p x = .ok b) : ∃ ys, filterExcept p l = .ok ys := by
  induction l with
  | nil => exact ⟨[], rfl⟩
  | cons x xs ih =>
    obtain ⟨b, hb⟩ := h x (by simp)
    obtain ⟨ys, hys⟩ := ih (fun y hy => h y (by simp [hy]))
    exact ⟨if b then x :: ys else ys, by simp [filterExcept, hb, hys]⟩

theorem minimatchE_ok (filename pattern : String)
    (h : (parseTranslated (translatePattern pattern)).isSome) :
    ∃ b, minimatchE filename pattern = .ok b := by
  obtain ⟨ts, hts⟩ := Option.isSome_iff_exists.mp h
  exact ⟨rmatch ts filename.data, by simp [minimatchE, minimatch, hts]⟩

theorem patternFilter_ok (st : ProjectStructure) (pats : List String)
    (h : ∀ p ∈ pats, (parseTranslated (translatePattern p)).isSome) :
    ∃ fl, filterExcept
      (fun file => someExcept (fun pattern => minimatchE file pattern) pats)
      st.files = .ok fl := by
  apply filterExcept_ok
  intro file _
  apply someExcept_ok
  intro pattern hp
  exact minimatchE_ok file pattern (h pattern hp)

/-- C8 amended: `analyzeProjectStructure` returns a message list and never
raises PROVIDED every include/exclude pattern translates to a regular
expression of the modelled fragment (in particular, every pattern built
from non-metacharacter literals and the wildcards `*`, `?`, `.`); a
pattern whose translation is invalid makes it propagate the RegExp
construction error instead (see the counterexample). -/
theorem analyzeProjectStructure_ok_on_wellformed_patterns
    (st : ProjectStructure) (cfg : TSConfig)
    (hinc : ∀ p ∈ cfg.includeProp.getD [], (parseTranslated (translatePattern p)).isSome)
    (hexc : ∀ p ∈ cfg.exclude.getD [], (parseTranslated (translatePattern p)).isSome) :
    (analyzeProjectStructure st cfg).isOk = true := by
  cases hi : cfg.includeProp with
  | none =>
    cases he : cfg.exclude with
    | none =>
      simp [analyzeProjectStructure, hi, he, Except.isOk, Except.toBool]
    | some excl =>
      obtain ⟨fl2, hfl2⟩ := patternFilter_ok st excl (by simpa [he] using hexc)
      simp only [analyzeProjectStructure, hi, he, hfl2]
      cases hl : decide (0 < fl2.length) <;> simp [Except.isOk, Except.toBool]
  | some incl =>
    obtain ⟨fl1, hfl1⟩ := patternFilter_ok st incl (by simpa [hi] using hinc)
    cases he : cfg.exclude with
    | none =>
      simp [analyzeProjectStructure, hi, he, hfl1, Except.isOk, Except.toBool]
    | some excl =>
      obtain ⟨fl2, hfl2⟩ := patternFilter_ok st excl (by simpa [he] using hexc)
      simp only [analyzeProjectStructure, hi, he, hfl1, hfl2]
      cases hl : decide (0 < fl2.length) <;> simp [Except.isOk, Except.toBool]

theorem analyzeProjectStructure_ok_witness :
    (analyzeProjectStructure { files := ["src/a.ts"] }
      { includeProp := some ["src/*.ts"], exclude := some ["dist/*"] }).isOk = true :=
  analyzeProjectStructure_ok_on_wellformed_patterns
    { files := ["src/a.ts"] }
    { includeProp := some ["src/*.ts"], exclude := some ["dist/*"] }
    (by decide) (by decide)

/-! ## Common-issue catalog and auto-fix (src/src/utils/project-structure.ts,
common-issues, lines 249-456) -/

/-- One rule of the static catalog: description, predicate, fix,
rationale.  The predicate can throw: the target/module rules call
`.toLowerCase()` on the option's value, a TypeError when it is present
with a non-string, non-null value. -/
structure Issue where
  description : String
  check : TSConfig → Except String Bool
  fix : TSConfig → TSConfig
  reason : String

/-- One detected issue: the rule's description and rationale plus the
pre-computed fixed configuration. -/
structure DetectedIssue where
  description : String
  fix : TSConfig
  reason : String

/-- JS `config.compilerOptions?.<k>` under `!` or a boolean test:
truthiness of the option, false when the chain is undefined. -/
def coTruthy (config : TSConfig) (k : String) : Bool :=
  match config.compilerOptions with
  | none => false
  | some co =>
    match getKey co k with
    | none => false
    | some v => v.truthy

/-- JS `config.compilerOptions?.<k>?.toLowerCase()` up to the method
call: the optional chain short-circuits to undefined when
`compilerOptions` is absent or the option is absent or null (`?.` is
nullish-aware), yields the string when the option is a string, and
throws a TypeError when the option is present with any other value
(numbers, booleans, arrays, objects have no `toLowerCase`). -/
def coStrE (config : TSConfig) (k : String) : Except String (Option String) :=
  match config.compilerOptions with
  | none => .ok none
  | some co =>
    match getKey co k with
    | none => .ok none
    | some Value.vNull => .ok none
    | some (Value.vStr s) => .ok (some s)
    | some _ => .error "TypeError: toLowerCase is not a function"

/-- ASCII `String.prototype.toLowerCase`. -/
def toLowerCaseStr (s : String) : String :=
  ⟨s.data.map Char.toLower⟩

/-- The fix shape every rule uses:
`\x7b...config, compilerOptions: \x7b...config.compilerOptions, k: v\x7d\x7d`. -/
def setCO (config : TSConfig) (k : String) (v : Value) : TSConfig :=
  { config with compilerOptions := some (setKey (config.compilerOptions.getD []) k v) }

/-- The static `commonIssues` catalog (project-structure.ts lines
256-436), in its fixed order. -/
def commonIssues : List Issue :=
  [{ description := "Strict mode is not enabled",
     check := fun config => .ok (!coTruthy config "strict"),
     fix := fun config => setCO config "strict" (Value.vBool true),
     reason := "Enabling strict mode helps catch more errors and improves type safety." },
   { description := "Target is set to an outdated ECMAScript version",
     check := fun config =>
       (coStrE config "target").map (fun target =>
         match target with
         | none => false
         | some s => toLowerCaseStr s != "" &&
             !(["es2018", "es2019", "es2020", "es2021", "es2022", "esnext"].contains
               (toLowerCaseStr s))),
     fix := fun config => setCO config "target" (Value.vStr "es2022"),
     reason := "Using a more modern target allows for better optimizations and newer language features." },
   { description := "Module is not set to ESNext",
     check := fun config =>
       (coStrE config "module").map (fun m =>
         match m with
         | none => true
         | some s => toLowerCaseStr s != "esnext"),
     fix := fun config => setCO config "module" (Value.vStr "ESNext"),
     reason := "Using ESNext as the module system enables better tree-shaking and is more future-proof." },
   { description := "esModuleInterop is not enabled",
     check := fun config => .ok (!coTruthy config "esModuleInterop"),
     fix := fun config => setCO config "esModuleInterop" (Value.vBool true),
     reason := "Enabling esModuleInterop improves compatibility with CommonJS modules." },
   { description := "forceConsistentCasingInFileNames is not enabled",
     check := fun config => .ok (!coTruthy config "forceConsistentCasingInFileNames"),
     fix := fun config => setCO config "forceConsistentCasingInFileNames" (Value.vBool true),
     reason := "Enforcing consistent casing in file names helps prevent issues on case-insensitive file systems." },
   { description := "skipLibCheck is not enabled",
     check := fun config => .ok (!coTruthy config "skipLibCheck"),
     fix := fun config => setCO config "skipLibCheck" (Value.vBool true),
     reason := "Enabling skipLibCheck can significantly improve compilation speed, especially in large projects." },
   { description := "noImplicitAny is not enabled",
     check := fun config => .ok (!coTruthy config "noImplicitAny"),
     fix := fun config => setCO config "noImplicitAny" (Value.vBool true),
     reason := "Enabling noImplicitAny helps catch potential type errors and improves code quality." },
   { description := "strictNullChecks is not enabled",
     check := fun config => .ok (!coTruthy config "strictNullChecks"),
     fix := fun config => setCO config "strictNullChecks" (Value.vBool true),
     reason := "Enabling strictNullChecks helps prevent null and undefined errors." },
   { description := "noUnusedLocals is not enabled",
     check := fun config => .ok (!coTruthy config "noUnusedLocals"),
     fix := fun config => setCO config "noUnusedLocals" (Value.vBool true),
     reason := "Enabling noUnusedLocals helps identify and remove unused variables, improving code cleanliness." },
   { description := "noUnusedParameters is not enabled",
     check := fun config => .ok (!coTruthy config "noUnusedParameters"),
     fix := fun config => setCO config "noUnusedParameters" (Value.vBool true),
     reason := "Enabling noUnusedParameters helps identify and remove unused function parameters, improving code cleanliness." },
   { description := "sourceMap is not enabled",
     check := fun config => .ok (!coTruthy config "sourceMap"),
     fix := fun config => setCO config "sourceMap" (Value.vBool true),
     reason := "Enabling sourceMap generation improves debugging experience by mapping compiled code back to the original TypeScript source." },
   { description := "declaration is not enabled",
     check := fun config => .ok (!coTruthy config "declaration"),
     fix := fun config => setCO config "declaration" (Value.vBool true),
     reason := "Enabling declaration file generation is crucial for libraries and improves IDE support for consumers of your code." },
   { description := "resolveJsonModule is not enabled",
     check := fun config => .ok (!coTruthy config "resolveJsonModule"),
     fix := fun config => setCO config "resolveJsonModule" (Value.vBool true),
     reason := "Enabling resolveJsonModule allows for importing JSON files as modules, which can be useful for configuration files or data." }]

/-- `analyzeCommonIssues` (lines 438-448): the rules whose predicate
holds, each with its pre-computed fixed configuration, in catalog order.
`filter` evaluates the predicates in order, so a TypeError thrown by the
target/module rules propagates out of the function. -/
def analyzeCommonIssues (config : TSConfig) : Except String (List DetectedIssue) :=
  match filterExcept (fun issue => issue.check config) commonIssues with
  | .error e => .error e
  | .ok issues =>
    .ok (issues.map (fun issue =>
      { description := issue.description, fix := issue.fix config, reason := issue.reason }))

/-- `applyFix` (lines 450-456): re-detect against the current
configuration (a throw from detection propagates), return the fix at the
index if still in range, else the input unchanged.  The index is a `Nat`
(the JS also rejects negative indices, which `Nat` has none of). -/
def applyFix (config : TSConfig) (fixIndex : Nat) : Except String TSConfig :=
  match analyzeCommonIssues config with
  | .error e => .error e
  | .ok issues =>
    if h : fixIndex < issues.length then .ok (issues.get ⟨fixIndex, h⟩).fix else .ok config

theorem coTruthy_setCO (config : TSConfig) (k : String) (v : Value) :
    coTruthy (setCO config k v) k = v.truthy := by
  unfold coTruthy setCO
  simp [getKey_setKey_self]

theorem coStrE_setCO (config : TSConfig) (k s : String) :
    coStrE (setCO config k (Value.vStr s)) k = .ok (some s) := by
  unfold coStrE setCO
  simp [getKey_setKey_self]

theorem coStrE_setCO_ne (config : TSConfig) (k k' : String) (v : Value) (h : k ≠ k') :
    coStrE (setCO config k' v) k = coStrE config k := by
  unfold coStrE setCO
  cases hco : config.compilerOptions with
  | none => simp [getKey_setKey_ne _ _ _ _ h, getKey_nil]
  | some co =>
    simp only [Option.getD_some, getKey_setKey_ne _ _ _ _ h]

theorem except_map_ok {ε α β : Type} (x : Except ε α) (f : α → β) (hx : x.isOk) :
    ∃ b, x.map f = .ok b := by
  cases x with
  | error e => simp [Except.isOk, Except.toBool] at hx
  | ok a => exact ⟨f a, rfl⟩

/-- Everything a successful `filterExcept` keeps came from the input and
passed its predicate. -/
theorem mem_filterExcept {ε α : Type} (p : α → Except ε Bool) (l : List α) (ys : List α)
    (h : filterExcept p l = .ok ys) : ∀ y ∈ ys, y ∈ l ∧ p y = .ok true := by
  induction l generalizing ys with
  | nil =>
    intro y hy
    simp only [filterExcept] at h
    obtain rfl : ys = [] := (Except.ok.inj h).symm
    simp at hy
  | cons x xs ih =>
    intro y hy
    simp only [filterExcept] at h
    cases hpx : p x with
    | error e => simp [hpx] at h
    | ok b =>
      rw [hpx] at h
      cases hrest : filterExcept p xs with
      | error e => simp [hrest] at h
      | ok ys' =>
        rw [hrest] at h
        have hys := Except.ok.inj h
        cases b with
        | false =>
          simp only [Bool.false_eq_true, if_false] at hys
          subst hys
          obtain ⟨hmem, hpy⟩ := ih ys' hrest y hy
          exact ⟨List.mem_cons_of_mem x hmem, hpy⟩
        | true =>
          simp only [if_true] at hys
          subst hys
          rcases List.mem_cons.mp hy with h1 | h1
          · exact ⟨by rw [h1]; exact List.mem_cons_self x xs, by rw [h1]; exact hpx⟩
          · obtain ⟨hmem, hpy⟩ := ih ys' hrest y h1
            exact ⟨List.mem_cons_of_mem x hmem, hpy⟩

/-- Every rule's own fix silences that rule's predicate (and the fixes,
which only write via spreads, never throw). -/
theorem check_fix_false (issue : Issue) (hmem : issue ∈ commonIssues) (config : TSConfig) :
    issue.check (issue.fix config) = .ok false := by
  fin_cases hmem <;>
    simp [coTruthy_setCO, coStrE_setCO, Value.truthy, toLowerCaseStr, Except.map]

/-- A rule's fix writes one option via a spread, leaving the
string-or-absent shape of `target` and `module` intact. -/
theorem fix_preserves_target_module (rule : Issue) (hrule : rule ∈ commonIssues)
    (config : TSConfig)
    (htar : (coStrE config "target").isOk) (hmod : (coStrE config "module").isOk) :
    (coStrE (rule.fix config) "target").isOk ∧ (coStrE (rule.fix config) "module").isOk := by
  fin_cases hrule <;>
    exact ⟨by first
        | (rw [coStrE_setCO_ne _ _ _ _ (by decide)]; exact htar)
        | simp [coStrE_setCO, Except.isOk, Except.toBool],
      by first
        | (rw [coStrE_setCO_ne _ _ _ _ (by decide)]; exact hmod)
        | simp [coStrE_setCO, Except.isOk, Except.toBool]⟩

/-- On a configuration whose `target` and `module` are string-shaped (or
absent, or null) no catalog predicate throws. -/
theorem checks_ok (config : TSConfig)
    (htar : (coStrE config "target").isOk) (hmod : (coStrE config "module").isOk) :
    ∀ issue ∈ commonIssues, ∃ b, issue.check config = .ok b := by
  intro issue hissue
  fin_cases hissue <;>
    first
      | exact ⟨_, rfl⟩
      | exact except_map_ok _ _ htar
      | exact except_map_ok _ _ hmod

/-- The 13 rule descriptions are pairwise distinct. -/
theorem commonIssues_descriptions_nodup : (commonIssues.map Issue.description).Nodup := by
  decide

/-- Configuration on which the claim fails: `module` is present with the
(valid JSON) number 5, so the module rule's `.toLowerCase()` throws. -/
def cfgC9bad : TSConfig := { compilerOptions := some [("module", Value.vNum 5)] }

/-- C9 counterexample: auto-fix is NOT idempotent for every configuration.
On `\x7bcompilerOptions: \x7bmodule: 5\x7d\x7d` the strict-mode rule's
predicate holds, yet re-running detection on that rule's fixed
configuration does not yield an issue list at all — the module rule's
`.toLowerCase()` call throws a TypeError — and `applyFix` with a stale
index propagates the same TypeError instead of returning the input
configuration unchanged. -/
theorem autoFix_idempotence_counterexample :
    (commonIssues.get ⟨0, by decide⟩).check cfgC9bad = .ok true ∧
    analyzeCommonIssues ((commonIssues.get ⟨0, by decide⟩).fix cfgC9bad) =
      .error "TypeError: toLowerCase is not a function" ∧
    applyFix cfgC9bad 99 = .error "TypeError: toLowerCase is not a function" ∧
    applyFix cfgC9bad 99 ≠ .ok cfgC9bad := by
  have h3 : applyFix cfgC9bad 99 =
      Except.error "TypeError: toLowerCase is not a function" := rfl
  refine ⟨rfl, rfl, h3, ?_⟩
  rw [h3]
  intro h
  exact Except.noConfusion h

/-- C9 amended: on every configuration whose `target` and `module`
options are strings, null, or absent (the shapes the catalog's string
operations are written for), auto-fix is idempotent per rule — whenever
a rule's predicate holds, detection on that rule's fixed configuration
succeeds and contains zero issues for that specific rule — and
`applyFix` with an index out of range of the successfully re-detected
issue list returns the input configuration unchanged. -/
theorem autoFix_idempotent_on_string_shaped_options :
    (∀ (config : TSConfig) (i : Nat) (hi : i < commonIssues.length),
      (coStrE config "target").isOk → (coStrE config "module").isOk →
      (commonIssues.get ⟨i, hi⟩).check config = .ok true →
      ∃ issues, analyzeCommonIssues ((commonIssues.get ⟨i, hi⟩).fix config) = .ok issues ∧
        issues.countP
          (fun r => r.description == (commonIssues.get ⟨i, hi⟩).description) = 0) ∧
    (∀ (config : TSConfig) (fixIndex : Nat) (issues : List DetectedIssue),
      analyzeCommonIssues config = .ok issues → ¬ fixIndex < issues.length →
      applyFix config fixIndex = .ok config) := by
  constructor
  · intro config i hi htar hmod _
    have hrulemem : commonIssues.get ⟨i, hi⟩ ∈ commonIssues :=
      List.get_mem commonIssues i hi
    obtain ⟨htar', hmod'⟩ :=
      fix_preserves_target_module (commonIssues.get ⟨i, hi⟩) hrulemem config htar hmod
    obtain ⟨filtered, hfil⟩ := filterExcept_ok
      (fun issue => issue.check ((commonIssues.get ⟨i, hi⟩).fix config))
      commonIssues (checks_ok _ htar' hmod')
    have hana : analyzeCommonIssues ((commonIssues.get ⟨i, hi⟩).fix config) =
        .ok (filtered.map (fun issue =>
          { description := issue.description,
            fix := issue.fix ((commonIssues.get ⟨i, hi⟩).fix config),
            reason := issue.reason })) := by
      unfold analyzeCommonIssues
      rw [hfil]
    refine ⟨_, hana, ?_⟩
    apply List.countP_eq_zero.mpr
    intro r hr
    obtain ⟨issue, hissue, hfr⟩ := List.mem_map.mp hr
    obtain ⟨hmem, hchk⟩ := mem_filterExcept _ _ _ hfil issue hissue
    intro hbeq
    have hdesc : issue.description = (commonIssues.get ⟨i, hi⟩).description := by
      have h1 : r.description = issue.description := by rw [← hfr]
      rw [← h1]
      exact eq_of_beq hbeq
    have hieq : issue = commonIssues.get ⟨i, hi⟩ :=
      List.inj_on_of_nodup_map commonIssues_descriptions_nodup hmem hrulemem hdesc
    rw [hieq, check_fix_false (commonIssues.get ⟨i, hi⟩) hrulemem config] at hchk
    simp at hchk
  · intro config fixIndex issues hok hnot
    unfold applyFix
    rw [hok]
    simp [hnot]

/-- Concrete configuration triggering the strict-mode rule (rule 0). -/
def cfgC9 : TSConfig := { compilerOptions := some [] }

theorem autoFix_idempotent_witness :
    (∃ issues, analyzeCommonIssues ((commonIssues.get ⟨0, by decide⟩).fix cfgC9) =
        .ok issues ∧
      issues.countP
        (fun r => r.description == (commonIssues.get ⟨0, by decide⟩).description) = 0) ∧
    applyFix cfgC9 20 = .ok cfgC9 :=
  ⟨(autoFix_idempotent_on_string_shaped_options).1 cfgC9 0 (by decide)
      (by decide) (by decide) rfl,
   (autoFix_idempotent_on_string_shaped_options).2 cfgC9 20 _ rfl (by decide)⟩

/-! ## node_modules scanning (src/src/utils/project-structure.ts,
node-modules-resolver, lines 97-185) and discovery error contrast
(src/unnamed/part_002, findTSConfigs) -/

/-- One `fs.Dirent`: its name and the `isDirectory()` / `isFile()`
answers. -/
structure DirEntry where
  name : String
  isDir : Bool
  isFile : Bool
  deriving DecidableEq, Repr

/-- The fields of a dependency's `package.json` the resolver reads. -/
structure PackageJson where
  name : String := ""
  version : String := ""
  types : Option String := none
  typings : Option String := none
  deriving DecidableEq, Repr

/-- The injected filesystem capability.  `readPackage` and `readConfig`
combine the read with the JSON parse (a read error and a parse error are
caught identically by every caller involved). -/
structure FS where
  readdir : String → Except String (List DirEntry)
  readPackage : String → Except String PackageJson
  readConfig : String → Except String TSConfig
  access : String → Except String Unit

/-- `path.join` for the single-segment joins the scanner performs. -/
def joinPath (a b : String) : String := a ++ "/" ++ b

/-- `name.startsWith(c)` for a one-character prefix. -/
def startsWithChar (s : String) (c : Char) : Bool :=
  match s.data with
  | [] => false
  | d :: _ => d == c

/-- `findTSConfig` (node-modules-resolver lines 165-185): candidate paths
(`tsconfig.json`, then the `types` and `typings` manifest fields,
`.filter(Boolean)` dropping absent or empty ones), first accessible one
wins, `none` if no candidate exists. -/
def findTSConfig (fs : FS) (packagePath : String) (packageJson : PackageJson) :
    Option String :=
  let possiblePaths :=
    [some (joinPath packagePath "tsconfig.json"),
     packageJson.types.bind
       (fun t => if t != "" then some (joinPath packagePath t) else none),
     packageJson.typings.bind
       (fun t => if t != "" then some (joinPath packagePath t) else none)].reduceOption
  possiblePaths.find? (fun p => (fs.access p).isOk)

/-- `resolvePackageConfig` (lines 142-163): its own try/catch makes every
failure (missing or unparsable manifest or configuration) a silent
`none`, so it never throws. -/
def resolvePackageConfig (fs : FS) (packagePath : String) : Option TSConfig :=
  match fs.readPackage (joinPath packagePath "package.json") with
  | .error _ => none
  | .ok packageJson =>
    match findTSConfig fs packagePath packageJson with
    | none => none
    | some tsConfigPath =>
      match fs.readConfig tsConfigPath with
      | .error _ => none
      | .ok config => some config

/-- The entry loop of `scanNodeModules` (lines 106-131).  The only throw
site inside the loop is the scoped-directory `readdir`; the outer catch
then logs and falls through to return the map accumulated so far, which
this function models by returning `acc` at that point. -/
def scanEntries (fs : FS) (nodeModulesPath : String) :
    List DirEntry → List (String × TSConfig) → List (String × TSConfig)
  | [], acc => acc
  | entry :: rest, acc =>
    if entry.isDir && !(startsWithChar entry.name '@') then
      let acc' := match resolvePackageConfig fs (joinPath nodeModulesPath entry.name) with
        | some config => setKey acc entry.name config
        | none => acc
      scanEntries fs nodeModulesPath rest acc'
    else if entry.isDir && startsWithChar entry.name '@' then
      match fs.readdir (joinPath nodeModulesPath entry.name) with
      | .error _ => acc
      | .ok scopedEntries =>
        let acc' := scopedEntries.foldl (fun a scopedEntry =>
          if scopedEntry.isDir then
            match resolvePackageConfig fs
                (joinPath (joinPath nodeModulesPath entry.name) scopedEntry.name) with
            | some config => setKey a (entry.name ++ "/" ++ scopedEntry.name) config
            | none => a
          else a) acc
        scanEntries fs nodeModulesPath rest acc'
    else scanEntries fs nodeModulesPath rest acc

/-- `scanNodeModules` (lines 97-140): the whole loop sits in a try/catch
whose handler only logs, so the function always returns the dependency
map accumulated up to the first read error (empty when `node_modules`
itself is unreadable or absent). -/
def scanNodeModules (fs : FS) (projectRoot : String) : List (String × TSConfig) :=
  let nodeModulesPath := joinPath projectRoot "node_modules"
  match fs.readdir nodeModulesPath with
  | .error _ => []
  | .ok entries => scanEntries fs nodeModulesPath entries []

/-- The recursive body of `findTSConfigs` (part_002 lines 22-46), fuel
bounding the recursion depth (any real directory tree is finite; the
claims only need positive fuel).  Unlike `scanNodeModules` there is no
catch: a read error propagates. -/
def scanDirectory (fs : FS) : Nat → String → Except String (List String)
  | 0, _ => .ok []
  | fuel + 1, dir =>
    match fs.readdir dir with
    | .error e => .error e
    | .ok entries =>
      entries.foldlM (fun acc entry =>
        if entry.isDir && !(startsWithChar entry.name '.') &&
            entry.name != "node_modules" then
          match scanDirectory fs fuel (joinPath dir entry.name) with
          | .error e => .error e
          | .ok sub => .ok (acc ++ sub)
        else if entry.isFile && CONFIG_FILE_NAMES.contains entry.name then
          .ok (acc ++ [joinPath dir entry.name])
        else .ok acc) []

/-- `findTSConfigs` (part_002 lines 22-46): configuration discovery,
aborting on any directory read error. -/
def findTSConfigs (fs : FS) (fuel : Nat) (projectRoot : String) :
    Except String (List String) :=
  scanDirectory fs fuel projectRoot

/-- A failing scoped-directory read ends the scan there: the entries
before it contribute exactly what they would alone. -/
theorem scanEntries_stops_at_error (fs : FS) (nmPath : String)
    (entry : DirEntry) (rest : List DirEntry) (err : String)
    (hdir : entry.isDir = true) (hat : startsWithChar entry.name '@' = true)
    (herr : fs.readdir (joinPath nmPath entry.name) = .error err) :
    ∀ (pre : List DirEntry) (acc : List (String × TSConfig)),
      scanEntries fs nmPath (pre ++ entry :: rest) acc = scanEntries fs nmPath pre acc := by
  intro pre
  induction pre with
  | nil =>
    intro acc
    simp [scanEntries, hdir, hat, herr]
  | cons p ps ih =>
    intro acc
    by_cases h1 : (p.isDir && !(startsWithChar p.name '@')) = true
    · simp only [List.cons_append, scanEntries, h1, if_true]
      exact ih _
    · by_cases h2 : (p.isDir && startsWithChar p.name '@') = true
      · cases hrd : fs.readdir (joinPath nmPath p.name) with
        | error e => simp [scanEntries, h1, h2, hrd]
        | ok scopedEntries =>
          simp only [List.cons_append, scanEntries, h1, h2, hrd, if_false, if_true]
          exact ih _
      · simp only [List.cons_append, scanEntries, h1, h2, if_false]
        exact ih _

/-- C10: `scanNodeModules` never raises and degrades gracefully — an
unreadable (or absent) `node_modules` yields the empty dependency map, a
read error on a scoped directory yields exactly the map accumulated from
the entries before it — while configuration discovery (`findTSConfigs`)
propagates a read error on the root instead of returning a value. -/
theorem scanNodeModules_swallows_read_errors (fs : FS) (projectRoot : String) :
    (∀ e, fs.readdir (joinPath projectRoot "node_modules") = .error e →
      scanNodeModules fs projectRoot = []) ∧
    (∀ (pre : List DirEntry) (entry : DirEntry) (rest : List DirEntry) (err : String),
      fs.readdir (joinPath projectRoot "node_modules") = .ok (pre ++ entry :: rest) →
      entry.isDir = true → startsWithChar entry.name '@' = true →
      fs.readdir (joinPath (joinPath projectRoot "node_modules") entry.name) = .error err →
      scanNodeModules fs projectRoot =
        scanEntries fs (joinPath projectRoot "node_modules") pre []) ∧
    (∀ (fuel : Nat) (e : String), fs.readdir projectRoot = .error e →
      findTSConfigs fs (fuel + 1) projectRoot = .error e) := by
  refine ⟨?_, ?_, ?_⟩
  · intro e he
    simp [scanNodeModules, he]
  · intro pre entry rest err hok hdir hat herr
    simp only [scanNodeModules, hok]
    exact scanEntries_stops_at_error fs _ entry rest err hdir hat herr pre []
  · intro fuel e he
    simp [findTSConfigs, scanDirectory, he]

/-- Filesystem in which `node_modules` itself is unreadable. -/
def fsC10a : FS :=
  { readdir := fun p => if p == "proj/node_modules" then .error "EACCES" else .ok [],
    readPackage := fun _ => .error "ENOENT",
    readConfig := fun _ => .error "ENOENT",
    access := fun _ => .error "ENOENT" }

/-- Filesystem in which a scoped directory inside `node_modules` is
unreadable. -/
def fsC10b : FS :=
  { readdir := fun p =>
      if p == "proj/node_modules" then
        .ok [⟨"alpha", true, false⟩, ⟨"@scope", true, false⟩, ⟨"beta", true, false⟩]
      else if p == "proj/node_modules/@scope" then .error "EIO"
      else .ok [],
    readPackage := fun _ => .error "ENOENT",
    readConfig := fun _ => .error "ENOENT",
    access := fun _ => .error "ENOENT" }

theorem scanNodeModules_swallows_read_errors_witness :
    scanNodeModules fsC10a "proj" = [] ∧
    scanNodeModules fsC10b "proj" =
      scanEntries fsC10b (joinPath "proj" "node_modules") [⟨"alpha", true, false⟩] [] ∧
    findTSConfigs fsC10a 1 "proj/node_modules" = .error "EACCES" :=
  ⟨(scanNodeModules_swallows_read_errors fsC10a "proj").1 "EACCES" rfl,
   (scanNodeModules_swallows_read_errors fsC10b "proj").2.1
     [⟨"alpha", true, false⟩] ⟨"@scope", true, false⟩ [⟨"beta", true, false⟩] "EIO"
     rfl rfl (by decide) rfl,
   (scanNodeModules_swallows_read_errors fsC10a "proj/node_modules").2.2 0 "EACCES" rfl⟩

end TsCheck
